import Mathlib

/-!
Verification development for the librobot warehouse simulator.

The definitions below are a shallow embedding of the Go sources in
`b-librobot/librobot` (`librobot_warehouse.go`, `librobot_errors.go`,
`librobot.go`).  Go `uint` coordinates are modelled as `Nat` with explicit
wrap-around modulo `2 ^ 64`; the occupancy grid `gridyx` (an
`[GridSize+1][GridSize+1]string` array) and the crate grid `cratesyx` are
modelled as total functions; fallible operations return `Except` values; the
statement-by-statement state threading of each Go function is kept, so every
early `return err` yields the state exactly as it stands at that point of the
source.
-/

set_option maxRecDepth 4000

namespace LibRobot

/-- Grid constant from librobot.go: `GridSize = 10`. -/
def GridSize : Nat := 10

/-- The modulus of the 64-bit Go `uint` type used for robot coordinates. -/
def U64 : Nat := 18446744073709551616

/-- Go `uint` increment (`x++`): wraps modulo `2 ^ 64`. -/
def uinc (n : Nat) : Nat := (n + 1) % U64

/-- Go `uint` decrement (`x--`): at `0` it wraps to `2 ^ 64 - 1`. -/
def udec (n : Nat) : Nat := (n + (U64 - 1)) % U64

/-- `RobotState` from librobot.go: coordinates and the carrying flag. -/
structure RobotState where
  X : Nat
  Y : Nat
  HasCrate : Bool
deriving DecidableEq

/-- The mutable world of `warehouseImpl`: the occupancy grid `gridyx[y][x]`
(robot id or empty string), the crate grid `cratesyx[y][x]`, and the robot
registry (Go map from robot id to the robot's state; the map is modelled as an
association list, and a `robotImpl` pointer is modelled by the entry that
holds the robot's current state). -/
structure Warehouse where
  gridyx : Nat → Nat → String
  cratesyx : Nat → Nat → Bool
  robots : List (String × RobotState)

/-- Write `v` into cell `(y, x)` of an occupancy grid. -/
def gridSet (g : Nat → Nat → String) (y x : Nat) (v : String) : Nat → Nat → String :=
  fun y2 x2 => if y2 = y ∧ x2 = x then v else g y2 x2

/-- Write `v` into cell `(y, x)` of a crate grid. -/
def crateSet (g : Nat → Nat → Bool) (y x : Nat) (v : Bool) : Nat → Nat → Bool :=
  fun y2 x2 => if y2 = y ∧ x2 = x then v else g y2 x2

/-- `NewWarehouse` from librobot_warehouse.go: empty grid, no robots. -/
def NewWarehouse : Warehouse :=
  { gridyx := fun _ _ => "", cratesyx := fun _ _ => false, robots := [] }

/-- The distinct error values of the package.  The named constructors mirror
the sentinel errors of librobot_errors.go; `addRobotOutOfBounds`,
`addRobotOccupied`, `cancelTaskNotFound` and `taskCancelled` mirror the
anonymous `errors.New` values created inline by `AddRobot`, `CancelTask` and
`executeTask`, which are distinct (by identity) from every sentinel;
`unknownCommand c` mirrors the `fmt.Errorf("unknown command: %c", cmd)`
value of `executeCommand`. -/
inductive LibError where
  | outOfBounds
  | positionOccupied
  | robotNotFound
  | taskNotFound
  | crateNotFound
  | crateExists
  | invalidWarehouseType
  | robotHasCrate
  | robotNotCarrying
  | unknownCommand (c : Char)
  | addRobotOutOfBounds
  | addRobotOccupied
  | cancelTaskNotFound
  | taskCancelled
deriving DecidableEq

instance {ε α : Type} [DecidableEq ε] [DecidableEq α] : DecidableEq (Except ε α)
  | .error a, .error b => decidable_of_iff (a = b) (by simp)
  | .error _, .ok _ => isFalse (fun h => Except.noConfusion h)
  | .ok _, .error _ => isFalse (fun h => Except.noConfusion h)
  | .ok a, .ok b => decidable_of_iff (a = b) (by simp)

/-- Modelled from the spec: the internal diagonal command token `NE`.  The Go
constant `MoveNorthEast` is declared in a source file that is not part of
src/; the library README renders the combined north-east command as the
single rune shown here.  All the development needs is that the four diagonal
tokens are pairwise distinct and distinct from `N`, `E`, `S`, `W`, `G`, `D`. -/
def MoveNorthEast : Char := '↗'

/-- Modelled from the spec: the internal diagonal command token `NW`. -/
def MoveNorthWest : Char := '↖'

/-- Modelled from the spec: the internal diagonal command token `SE`. -/
def MoveSouthEast : Char := '↘'

/-- Modelled from the spec: the internal diagonal command token `SW`. -/
def MoveSouthWest : Char := '↙'

/-- `AddRobot` from librobot_warehouse.go.  The fresh `uuid.New().String()`
identifier is passed in as `robotID`.  On success the robot is registered in
the same step that marks the grid; the `Robot` return value of the Go
function is the registry entry itself. -/
def AddRobot (w : Warehouse) (initialX initialY : Nat) (robotID : String) :
    Except LibError Warehouse :=
  if initialX > GridSize ∨ initialY > GridSize then
    .error .addRobotOutOfBounds
  else if w.gridyx initialY initialX ≠ "" then
    .error .addRobotOccupied
  else
    .ok { w with
          robots := (robotID, ⟨initialX, initialY, false⟩) :: w.robots,
          gridyx := gridSet w.gridyx initialY initialX robotID }

/-- `grabCrate` from librobot_warehouse.go: both error returns happen before
any mutation, so the error cases leave the pair `(warehouse, state)` as
given. -/
def grabCrate (w : Warehouse) (st : RobotState) :
    Except LibError (Warehouse × RobotState) :=
  if st.HasCrate then .error .robotHasCrate
  else if ¬ w.cratesyx st.Y st.X then .error .crateNotFound
  else .ok ({ w with cratesyx := crateSet w.cratesyx st.Y st.X false },
            { st with HasCrate := true })

/-- `dropCrate` from librobot_warehouse.go. -/
def dropCrate (w : Warehouse) (st : RobotState) :
    Except LibError (Warehouse × RobotState) :=
  if ¬ st.HasCrate then .error .robotNotCarrying
  else if w.cratesyx st.Y st.X then .error .crateExists
  else .ok ({ w with cratesyx := crateSet w.cratesyx st.Y st.X true },
            { st with HasCrate := false })

/-- The tail of `executeCommand` that every non-returning switch branch falls
into: the boundary check (`newX > GridSize-1 || newY > GridSize-1 || newX < 0
|| newY < 0`, the sign tests being vacuous on `uint`), the collision check,
and the joint grid/state update. -/
def finishMove (rid : String) (currentX currentY newX newY : Nat)
    (w : Warehouse) (st : RobotState) :
    Except LibError Unit × Warehouse × RobotState :=
  if newX > GridSize - 1 ∨ newY > GridSize - 1 ∨ newX < 0 ∨ newY < 0 then
    (.error .outOfBounds, w, st)
  else if w.gridyx newY newX ≠ "" ∧ w.gridyx newY newX ≠ rid then
    (.error .positionOccupied, w, st)
  else
    (.ok (), { w with gridyx := gridSet (gridSet w.gridyx currentY currentX "") newY newX rid },
     { st with X := newX, Y := newY })

/-- `executeCommand` from librobot_warehouse.go, for the robot with id `rid`,
capability flag `canPickCrates` and state `st`, acting on warehouse `w`.  The
Go switch is rendered as an if-chain in source case order; each `return err`
yields the warehouse and robot state exactly as they stand at that return
(note that a successful `grabCrate`/`dropCrate` has already mutated them
before the boundary check runs). -/
def executeCommand (canPickCrates : Bool) (rid : String)
    (w : Warehouse) (st : RobotState) (cmd : Char) :
    Except LibError Unit × Warehouse × RobotState :=
  let currentX := st.X
  let currentY := st.Y
  if cmd = 'N' then finishMove rid currentX currentY currentX (uinc currentY) w st
  else if cmd = 'S' then finishMove rid currentX currentY currentX (udec currentY) w st
  else if cmd = 'E' then finishMove rid currentX currentY (uinc currentX) currentY w st
  else if cmd = 'W' then finishMove rid currentX currentY (udec currentX) currentY w st
  else if cmd = 'G' then
    if ¬ canPickCrates then (.error .invalidWarehouseType, w, st)
    else
      match grabCrate w st with
      | .error e => (.error e, w, st)
      | .ok (w1, st1) => finishMove rid currentX currentY currentX currentY w1 st1
  else if cmd = 'D' then
    if ¬ canPickCrates then (.error .invalidWarehouseType, w, st)
    else
      match dropCrate w st with
      | .error e => (.error e, w, st)
      | .ok (w1, st1) => finishMove rid currentX currentY currentX currentY w1 st1
  else if cmd = MoveNorthEast then
    finishMove rid currentX currentY (uinc currentX) (uinc currentY) w st
  else if cmd = MoveNorthWest then
    finishMove rid currentX currentY (udec currentX) (uinc currentY) w st
  else if cmd = MoveSouthEast then
    finishMove rid currentX currentY (uinc currentX) (udec currentY) w st
  else if cmd = MoveSouthWest then
    finishMove rid currentX currentY (udec currentX) (udec currentY) w st
  else (.error (.unknownCommand cmd), w, st)

/-- The command loop of `executeTask` from librobot_warehouse.go, with the
concurrency plumbing (cancellation poll, position publication, tick sleep)
stripped: commands run in order and the task aborts on the first error,
leaving the world and robot state as that failing command left them. -/
def runCommands (canPickCrates : Bool) (rid : String) :
    Warehouse → RobotState → List Char → Except LibError Unit × Warehouse × RobotState
  | w, st, [] => (.ok (), w, st)
  | w, st, c :: cs =>
    match executeCommand canPickCrates rid w st c with
    | (.ok _, w1, st1) => runCommands canPickCrates rid w1 st1 cs
    | (.error e, w1, st1) => (.error e, w1, st1)

/-- `parseCommands` from librobot_warehouse.go: the loop appends every rune
of the program except the space character. -/
def parseCommands (commands : String) : List Char :=
  commands.data.foldl (fun cmds r => if r ≠ ' ' then cmds ++ [r] else cmds) []

/-- The sentinel value of the `lastCmd` variable of `processCommands` (a Go
`rune` is zero-initialised). -/
def nullCmd : Char := Char.ofNat 0

/-- `isCardinal` from `processCommands` in librobot_warehouse.go. -/
def isCardinal (r : Char) : Bool :=
  r == 'N' || r == 'S' || r == 'E' || r == 'W'

/-- `isOrthogonal` from `processCommands` in librobot_warehouse.go: it
compares whether the first command is vertical with whether the second is
horizontal. -/
def isOrthogonal (r1 r2 : Char) : Bool :=
  let isVertical := r1 == 'N' || r1 == 'S'
  let isHorizontal := r2 == 'E' || r2 == 'W'
  isVertical == isHorizontal

/-- One iteration of the `processCommands` loop: the accumulator pairs the
emitted commands with the held `lastCmd`. -/
def processStep (acc : List Char × Char) (cmd : Char) : List Char × Char :=
  let processedCmds := acc.1
  let lastCmd := acc.2
  if lastCmd != nullCmd && isCardinal lastCmd && isCardinal cmd && isOrthogonal lastCmd cmd then
    if (lastCmd == 'N' && cmd == 'E') || (lastCmd == 'E' && cmd == 'N') then
      (processedCmds ++ [MoveNorthEast], nullCmd)
    else if (lastCmd == 'N' && cmd == 'W') || (lastCmd == 'W' && cmd == 'N') then
      (processedCmds ++ [MoveNorthWest], nullCmd)
    else if (lastCmd == 'S' && cmd == 'E') || (lastCmd == 'E' && cmd == 'S') then
      (processedCmds ++ [MoveSouthEast], nullCmd)
    else if (lastCmd == 'S' && cmd == 'W') || (lastCmd == 'W' && cmd == 'S') then
      (processedCmds ++ [MoveSouthWest], nullCmd)
    else
      (processedCmds, lastCmd)
  else
    (if lastCmd != nullCmd then processedCmds ++ [lastCmd] else processedCmds, cmd)

/-- `processCommands` from librobot_warehouse.go: a single left-to-right pass
holding at most one command, with the held command flushed at the end. -/
def processCommands (commands : List Char) : List Char :=
  let acc := commands.foldl processStep ([], nullCmd)
  if acc.2 != nullCmd then acc.1 ++ [acc.2] else acc.1

/-- Recursive formulation of the `processCommands` pass (same conditions,
case for case), used to reason by induction; `processCommands_eq_rec` proves
that it computes the same list as the fold. -/
def processRec (lastCmd : Char) : List Char → List Char
  | [] => if lastCmd != nullCmd then [lastCmd] else []
  | c :: cs =>
    if lastCmd != nullCmd && isCardinal lastCmd && isCardinal c && isOrthogonal lastCmd c then
      if (lastCmd == 'N' && c == 'E') || (lastCmd == 'E' && c == 'N') then
        MoveNorthEast :: processRec nullCmd cs
      else if (lastCmd == 'N' && c == 'W') || (lastCmd == 'W' && c == 'N') then
        MoveNorthWest :: processRec nullCmd cs
      else if (lastCmd == 'S' && c == 'E') || (lastCmd == 'E' && c == 'S') then
        MoveSouthEast :: processRec nullCmd cs
      else if (lastCmd == 'S' && c == 'W') || (lastCmd == 'W' && c == 'S') then
        MoveSouthWest :: processRec nullCmd cs
      else processRec lastCmd cs
    else
      if lastCmd != nullCmd then lastCmd :: processRec c cs else processRec c cs

/-- The final flush of `processCommands`, applied to a fold accumulator. -/
def flushAcc (acc : List Char × Char) : List Char :=
  if acc.2 != nullCmd then acc.1 ++ [acc.2] else acc.1

/-- `CancelTask` from librobot_warehouse.go.  The robot's `cancelChannels`
map is modelled as an association list from task id to the state of that
task's one-shot cancellation channel (`true` = closed); the returned flag is
the final state of the target task's channel, which outlives its deletion
from the map.  An unknown id yields the inline `errors.New` value, not the
`ErrTaskNotFound` sentinel. -/
def CancelTask (chans : List (String × Bool)) (taskID : String) :
    Except LibError (List (String × Bool) × Bool) :=
  match List.lookup taskID chans with
  | none => .error .cancelTaskNotFound
  | some cancelCh =>
    let closed := if cancelCh then cancelCh else true
    .ok (chans.filter (fun p => p.1 ≠ taskID), closed)

/-- `EnqueueTask`'s registration of a task's fresh (open) cancellation
channel in `cancelChannels`. -/
def enqueueCancel (chans : List (String × Bool)) (taskID : String) :
    List (String × Bool) :=
  (taskID, false) :: chans

/-- Update the registry entry of robot `id` (a `robotImpl` pointer write seen
through the `robots` map). -/
def setRobot (robots : List (String × RobotState)) (id : String) (st : RobotState) :
    List (String × RobotState) :=
  robots.map (fun p => if p.1 = id then (id, st) else p)

/-- One command executed by the robot `rid` registered in `w`, with the
state write-back that in Go happens through the shared `robotImpl` pointer. -/
def stepRobot (canPickCrates : Bool) (w : Warehouse) (rid : String) (cmd : Char) :
    Except LibError Unit × Warehouse :=
  match List.lookup rid w.robots with
  | none => (.ok (), w)
  | some st =>
    match executeCommand canPickCrates rid w st cmd with
    | (res, w1, st1) => (res, { w1 with robots := setRobot w1.robots rid st1 })

/-- The list of movement commands (cardinal and diagonal). -/
def movementCmds : List Char :=
  ['N', 'S', 'E', 'W', MoveNorthEast, MoveNorthWest, MoveSouthEast, MoveSouthWest]

/-- The full command alphabet recognised by `executeCommand`. -/
def recognisedCmds : List Char :=
  ['N', 'S', 'E', 'W', 'G', 'D', MoveNorthEast, MoveNorthWest, MoveSouthEast, MoveSouthWest]

/-- The diagonal token that the spec's pairing table assigns to an orthogonal
cardinal pair; stated from the spec for comparison with `processStep`. -/
def fuseDiag (h c : Char) : Char :=
  if (h = 'N' ∧ c = 'E') ∨ (h = 'E' ∧ c = 'N') then MoveNorthEast
  else if (h = 'N' ∧ c = 'W') ∨ (h = 'W' ∧ c = 'N') then MoveNorthWest
  else if (h = 'S' ∧ c = 'E') ∨ (h = 'E' ∧ c = 'S') then MoveSouthEast
  else MoveSouthWest

/-- A non-empty occupancy cell `(y, x)` points back, through the registry, to
a robot standing exactly there (unique, since registry keys are distinct). -/
def cellOwned (w : Warehouse) (y x : Nat) : Prop :=
  ∃ st, List.lookup (w.gridyx y x) w.robots = some st ∧ st.X = x ∧ st.Y = y

instance cellOwnedDec (w : Warehouse) (y x : Nat) : Decidable (cellOwned w y x) :=
  match hl : List.lookup (w.gridyx y x) w.robots with
  | none =>
    isFalse (fun hex => by
      obtain ⟨st, hst, -⟩ := hex
      rw [hl] at hst
      exact Option.noConfusion hst)
  | some st =>
    decidable_of_iff (st.X = x ∧ st.Y = y)
      ⟨fun hp => ⟨st, hl, hp⟩, fun hex => by
        obtain ⟨st2, hst2, hp⟩ := hex
        rw [hl] at hst2
        cases Option.some.inj hst2
        exact hp⟩

/-- The occupancy invariant of the warehouse (spec section 8): registry keys
are distinct; every registered robot stands on a valid cell of the grid array
and that cell holds its id; and every non-empty cell within the grid array is
owned by the robot registered under the id it holds, standing at exactly that
cell. -/
def OccInv (w : Warehouse) : Prop :=
  (w.robots.map Prod.fst).Nodup ∧
  (∀ p ∈ w.robots, p.1 ≠ "" ∧ p.2.X ≤ GridSize ∧ p.2.Y ≤ GridSize ∧
     w.gridyx p.2.Y p.2.X = p.1) ∧
  (∀ y, y ≤ GridSize → ∀ x, x ≤ GridSize → w.gridyx y x ≠ "" → cellOwned w y x)

instance OccInvDec (w : Warehouse) : Decidable (OccInv w) := by
  unfold OccInv
  infer_instance


/-- Properness of a single robot's view of the grid, implied by the occupancy
invariant: the robot's id is non-empty, marks its own cell, and marks no
other cell of the grid array. -/
def Proper (w : Warehouse) (rid : String) (st : RobotState) : Prop :=
  rid ≠ "" ∧ w.gridyx st.Y st.X = rid ∧
  ∀ y, y ≤ GridSize → ∀ x, x ≤ GridSize → ¬(y = st.Y ∧ x = st.X) → w.gridyx y x ≠ rid
instance ProperDec (w : Warehouse) (rid : String) (st : RobotState) :
    Decidable (Proper w rid st) := by
  unfold Proper
  infer_instance


section Lemmas

theorem gridSet_same (g : Nat → Nat → String) (y x : Nat) (v : String) :
    gridSet g y x v y x = v := by
  simp [gridSet]

theorem gridSet_other (g : Nat → Nat → String) (y x : Nat) (v : String) (y2 x2 : Nat)
    (h : ¬(y2 = y ∧ x2 = x)) : gridSet g y x v y2 x2 = g y2 x2 := by
  simp [gridSet, h]

theorem crateSet_same (g : Nat → Nat → Bool) (y x : Nat) (v : Bool) :
    crateSet g y x v y x = v := by
  simp [crateSet]

theorem crateSet_other (g : Nat → Nat → Bool) (y x : Nat) (v : Bool) (y2 x2 : Nat)
    (h : ¬(y2 = y ∧ x2 = x)) : crateSet g y x v y2 x2 = g y2 x2 := by
  simp [crateSet, h]

/-- Clearing a cell and re-writing the value it already held is the identity. -/
theorem gridSet_clear_set (g : Nat → Nat → String) (y x : Nat) (rid : String)
    (hg : g y x = rid) : gridSet (gridSet g y x "") y x rid = g := by
  funext y2 x2
  by_cases hc : y2 = y ∧ x2 = x
  · obtain ⟨rfl, rfl⟩ := hc
    rw [gridSet_same, hg]
  · rw [gridSet_other _ _ _ _ _ _ hc, gridSet_other _ _ _ _ _ _ hc]

/-- An error return of the shared movement tail leaves the state untouched. -/
theorem finishMove_err {rid : String} {cx cy nx ny : Nat} {w : Warehouse} {st : RobotState}
    {e : LibError} {w1 : Warehouse} {st1 : RobotState}
    (h : finishMove rid cx cy nx ny w st = (.error e, w1, st1)) : w1 = w ∧ st1 = st := by
  unfold finishMove at h
  split at h
  · exact ⟨(congrArg (fun p => p.2.1) h).symm, (congrArg (fun p => p.2.2) h).symm⟩
  · split at h
    · exact ⟨(congrArg (fun p => p.2.1) h).symm, (congrArg (fun p => p.2.2) h).symm⟩
    · exact absurd (congrArg (fun p => p.1) h) (by simp)

/-- Characterisation of a successful movement tail. -/
theorem finishMove_ok {rid : String} {cx cy nx ny : Nat} {w : Warehouse} {st : RobotState}
    {w1 : Warehouse} {st1 : RobotState}
    (h : finishMove rid cx cy nx ny w st = (.ok (), w1, st1)) :
    nx ≤ GridSize - 1 ∧ ny ≤ GridSize - 1 ∧
    (w.gridyx ny nx = "" ∨ w.gridyx ny nx = rid) ∧
    w1 = { w with gridyx := gridSet (gridSet w.gridyx cy cx "") ny nx rid } ∧
    st1 = ⟨nx, ny, st.HasCrate⟩ := by
  unfold finishMove at h
  split at h
  · exact absurd (congrArg (fun p => p.1) h) (by simp)
  · split at h
    · exact absurd (congrArg (fun p => p.1) h) (by simp)
    · rename_i hbound hocc
      push_neg at hbound hocc
      refine ⟨hbound.1, hbound.2.1, ?_, ?_, ?_⟩
      · by_cases hv : w.gridyx ny nx = ""
        · exact Or.inl hv
        · exact Or.inr (hocc hv)
      · exact (congrArg (fun p => p.2.1) h).symm
      · exact (congrArg (fun p => p.2.2) h).symm

theorem executeCommand_N (cp : Bool) (rid : String) (w : Warehouse) (st : RobotState) :
    executeCommand cp rid w st 'N' = finishMove rid st.X st.Y st.X (uinc st.Y) w st := by
  simp [executeCommand]

theorem executeCommand_S (cp : Bool) (rid : String) (w : Warehouse) (st : RobotState) :
    executeCommand cp rid w st 'S' = finishMove rid st.X st.Y st.X (udec st.Y) w st := by
  simp [executeCommand]

theorem executeCommand_E (cp : Bool) (rid : String) (w : Warehouse) (st : RobotState) :
    executeCommand cp rid w st 'E' = finishMove rid st.X st.Y (uinc st.X) st.Y w st := by
  simp [executeCommand]

theorem executeCommand_W (cp : Bool) (rid : String) (w : Warehouse) (st : RobotState) :
    executeCommand cp rid w st 'W' = finishMove rid st.X st.Y (udec st.X) st.Y w st := by
  simp [executeCommand]

theorem executeCommand_NE (cp : Bool) (rid : String) (w : Warehouse) (st : RobotState) :
    executeCommand cp rid w st MoveNorthEast =
      finishMove rid st.X st.Y (uinc st.X) (uinc st.Y) w st := by
  simp [executeCommand, MoveNorthEast]

theorem executeCommand_NW (cp : Bool) (rid : String) (w : Warehouse) (st : RobotState) :
    executeCommand cp rid w st MoveNorthWest =
      finishMove rid st.X st.Y (udec st.X) (uinc st.Y) w st := by
  simp [executeCommand, MoveNorthEast, MoveNorthWest]

theorem executeCommand_SE (cp : Bool) (rid : String) (w : Warehouse) (st : RobotState) :
    executeCommand cp rid w st MoveSouthEast =
      finishMove rid st.X st.Y (uinc st.X) (udec st.Y) w st := by
  simp [executeCommand, MoveNorthEast, MoveNorthWest, MoveSouthEast]

theorem executeCommand_SW (cp : Bool) (rid : String) (w : Warehouse) (st : RobotState) :
    executeCommand cp rid w st MoveSouthWest =
      finishMove rid st.X st.Y (udec st.X) (udec st.Y) w st := by
  simp [executeCommand, MoveNorthEast, MoveNorthWest, MoveSouthEast, MoveSouthWest]

theorem executeCommand_G (cp : Bool) (rid : String) (w : Warehouse) (st : RobotState) :
    executeCommand cp rid w st 'G' =
      (if ¬ cp then (.error .invalidWarehouseType, w, st)
       else
         match grabCrate w st with
         | .error e => (.error e, w, st)
         | .ok (w1, st1) => finishMove rid st.X st.Y st.X st.Y w1 st1) := by
  simp [executeCommand]

theorem executeCommand_D (cp : Bool) (rid : String) (w : Warehouse) (st : RobotState) :
    executeCommand cp rid w st 'D' =
      (if ¬ cp then (.error .invalidWarehouseType, w, st)
       else
         match dropCrate w st with
         | .error e => (.error e, w, st)
         | .ok (w1, st1) => finishMove rid st.X st.Y st.X st.Y w1 st1) := by
  simp [executeCommand]

/-- A command character outside the recognised alphabet falls through every
switch case into the default branch. -/
theorem executeCommand_unknown (cp : Bool) (rid : String) (w : Warehouse) (st : RobotState)
    (c : Char) (h : c ∉ recognisedCmds) :
    executeCommand cp rid w st c = (.error (.unknownCommand c), w, st) := by
  simp only [recognisedCmds, List.mem_cons, List.not_mem_nil, or_false, not_or] at h
  obtain ⟨h1, h2, h3, h4, h5, h6, h7, h8, h9, h10⟩ := h
  simp [executeCommand, h1, h2, h3, h4, h5, h6, h7, h8, h9, h10]

/-- Stepping the command loop over a successful prefix. -/
theorem runCommands_append_ok {cp : Bool} {rid : String} {w : Warehouse} {st : RobotState}
    {pre : List Char} {w1 : Warehouse} {st1 : RobotState}
    (h : runCommands cp rid w st pre = (.ok (), w1, st1)) (rest : List Char) :
    runCommands cp rid w st (pre ++ rest) = runCommands cp rid w1 st1 rest := by
  induction pre generalizing w st with
  | nil =>
    simp only [runCommands] at h
    have hw : w1 = w := (congrArg (fun p => p.2.1) h).symm
    have hst : st1 = st := (congrArg (fun p => p.2.2) h).symm
    subst hw
    subst hst
    rw [List.nil_append]
  | cons c cs ih =>
    rw [List.cons_append]
    simp only [runCommands] at h ⊢
    rcases hstep : executeCommand cp rid w st c with ⟨res, w2, st2⟩
    simp only [hstep] at h ⊢
    cases res with
    | ok u => exact ih h
    | error e => exact absurd (congrArg (fun p => p.1) h) (by simp)

/-- Splitting a successful command-loop run at a cons cell. -/
theorem runCommands_cons_ok {cp : Bool} {rid : String} {w : Warehouse} {st : RobotState}
    {c : Char} {cs : List Char} {w1 : Warehouse} {st1 : RobotState}
    (h : runCommands cp rid w st (c :: cs) = (.ok (), w1, st1)) :
    ∃ w2 st2, executeCommand cp rid w st c = (.ok (), w2, st2) ∧
      runCommands cp rid w2 st2 cs = (.ok (), w1, st1) := by
  simp only [runCommands] at h
  rcases hstep : executeCommand cp rid w st c with ⟨res, w2, st2⟩
  rw [hstep] at h
  cases res with
  | ok u =>
    cases u
    exact ⟨w2, st2, rfl, h⟩
  | error e => exact absurd (congrArg (fun p => p.1) h) (by simp)

end Lemmas

/-- C2: On an empty warehouse, `AddRobot` accepts the initial position
`(GridSize, 0) = (10, 0)`, registering a robot at a coordinate with
`x ≥ G = 10`: the bound check of `AddRobot` is `initialX > GridSize` instead
of `initialX ≥ GridSize`, so admission does not fail with the out-of-bounds
error exactly on the complement of `0 ≤ x < G`, contradicting the claim. -/
theorem addRobot_admits_x_eq_gridSize :
    (AddRobot NewWarehouse GridSize 0 "R1").toOption.map (fun w => List.lookup "R1" w.robots) =
      some (some ⟨GridSize, 0, false⟩) ∧
    ¬ GridSize < GridSize ∧
    (AddRobot NewWarehouse (GridSize + 1) 0 "R1").toOption.map (fun w => List.lookup "R1" w.robots) =
      none := by
  decide

/-- C6: `parseCommands` only discards the space character, not every
whitespace character: the tab in the program string below is kept as a
command, while the claim requires it to be dropped during parsing.
The second conjunct shows the behaviour on the space-separated program. -/
theorem parseCommands_keeps_tab :
    parseCommands "N\tE" = ['N', '\t', 'E'] ∧
    Char.isWhitespace '\t' = true ∧
    parseCommands "N E S W" = ['N', 'E', 'S', 'W'] := by
  decide

/-- C3: a movement command (cardinal or diagonal) that fails leaves the
warehouse — occupancy grid, crate map and registry — and the robot state
completely unchanged; in particular `S` and `W` from `(0, 0)` fail with the
out-of-bounds error and change nothing. -/
theorem movement_failure_atomic (cp : Bool) (rid : String) (w : Warehouse)
    (st : RobotState) (cmd : Char) (hc : cmd ∈ movementCmds) :
    (∀ e w1 st1, executeCommand cp rid w st cmd = (.error e, w1, st1) → w1 = w ∧ st1 = st) ∧
    executeCommand cp rid w ⟨0, 0, st.HasCrate⟩ 'S' =
      (.error .outOfBounds, w, ⟨0, 0, st.HasCrate⟩) ∧
    executeCommand cp rid w ⟨0, 0, st.HasCrate⟩ 'W' =
      (.error .outOfBounds, w, ⟨0, 0, st.HasCrate⟩) := by
  refine ⟨?_, ?_, ?_⟩
  · intro e w1 st1 h
    simp only [movementCmds, List.mem_cons, List.not_mem_nil, or_false] at hc
    rcases hc with rfl | rfl | rfl | rfl | rfl | rfl | rfl | rfl
    · rw [executeCommand_N] at h; exact finishMove_err h
    · rw [executeCommand_S] at h; exact finishMove_err h
    · rw [executeCommand_E] at h; exact finishMove_err h
    · rw [executeCommand_W] at h; exact finishMove_err h
    · rw [executeCommand_NE] at h; exact finishMove_err h
    · rw [executeCommand_NW] at h; exact finishMove_err h
    · rw [executeCommand_SE] at h; exact finishMove_err h
    · rw [executeCommand_SW] at h; exact finishMove_err h
  · rw [executeCommand_S]
    unfold finishMove
    rw [if_pos]
    exact Or.inr (Or.inl (show udec 0 > GridSize - 1 by decide))
  · rw [executeCommand_W]
    unfold finishMove
    rw [if_pos]
    exact Or.inl (show udec 0 > GridSize - 1 by decide)

/-- Witness for C3: moving `S` from `(0, 0)` on the empty warehouse fails
with the out-of-bounds error and leaves everything unchanged. -/
theorem movement_failure_atomic_witness :
    executeCommand false "R1" NewWarehouse ⟨0, 0, false⟩ 'S' =
      (.error .outOfBounds, NewWarehouse, ⟨0, 0, false⟩) :=
  (movement_failure_atomic false "R1" NewWarehouse ⟨0, 0, false⟩ 'S' (by decide)).2.1

/-- C4: the diagonal rewriter performs greedy left-biased pairing.  For any
state of the single pass: a held cardinal command fuses with an orthogonal
cardinal successor into exactly one diagonal token and the hold is cleared
(so a consumed command is never re-considered, as the fourth conjunct makes
explicit: with an empty hold the incoming command is only held, never
fused); a held cardinal followed by a same-axis cardinal is flushed, not
fused; `G` and `D` never participate in a fusion on either side; and the
example list `N,E,E,N,W,W` rewrites to `NE,NE,W,W`. -/
theorem diagonal_rewriter_greedy :
    (∀ (out : List Char) (h c : Char), h ∈ ['N', 'S', 'E', 'W'] → c ∈ ['N', 'S', 'E', 'W'] →
       isOrthogonal h c = true →
       processStep (out, h) c = (out ++ [fuseDiag h c], nullCmd) ∧
       fuseDiag h c ∈ [MoveNorthEast, MoveNorthWest, MoveSouthEast, MoveSouthWest]) ∧
    (∀ (out : List Char) (h c : Char), h ∈ ['N', 'S', 'E', 'W'] → c ∈ ['N', 'S', 'E', 'W'] →
       isOrthogonal h c = false →
       processStep (out, h) c = (out ++ [h], c)) ∧
    (∀ (out : List Char) (h c : Char), h ≠ nullCmd → h = 'G' ∨ h = 'D' ∨ c = 'G' ∨ c = 'D' →
       processStep (out, h) c = (out ++ [h], c)) ∧
    (∀ (out : List Char) (c : Char), processStep (out, nullCmd) c = (out, c)) ∧
    processCommands ['N', 'E', 'E', 'N', 'W', 'W'] =
      [MoveNorthEast, MoveNorthEast, 'W', 'W'] := by
  refine ⟨?_, ?_, ?_, ?_, by decide⟩
  · intro out h c hh hc ho
    simp only [List.mem_cons, List.not_mem_nil, or_false] at hh hc
    rcases hh with rfl | rfl | rfl | rfl <;> rcases hc with rfl | rfl | rfl | rfl <;>
      first
      | exact absurd ho (by decide)
      | exact ⟨by simp [processStep, isCardinal, isOrthogonal, nullCmd, fuseDiag], by decide⟩
  · intro out h c hh hc ho
    simp only [List.mem_cons, List.not_mem_nil, or_false] at hh hc
    rcases hh with rfl | rfl | rfl | rfl <;> rcases hc with rfl | rfl | rfl | rfl <;>
      first
      | exact absurd ho (by decide)
      | simp [processStep, isCardinal, isOrthogonal, nullCmd]
  · intro out h c hne hgd
    rcases hgd with rfl | rfl | rfl | rfl
    · simp [processStep, isCardinal, nullCmd]
    · simp [processStep, isCardinal, nullCmd]
    · simp [processStep, isCardinal, hne]
    · simp [processStep, isCardinal, hne]
  · intro out c
    simp [processStep]

/-- Witness for C4: the pairing facts applied at concrete inputs, including
the fusion of a held `N` with an incoming `E`, the refusal to fuse `E E`,
the exclusion of `G`, and the behaviour of an empty hold. -/
theorem diagonal_rewriter_greedy_witness :
    (processStep ([], 'N') 'E' = ([fuseDiag 'N' 'E'], nullCmd) ∧
     fuseDiag 'N' 'E' ∈ [MoveNorthEast, MoveNorthWest, MoveSouthEast, MoveSouthWest]) ∧
    processStep ([], 'E') 'E' = (['E'], 'E') ∧
    processStep ([], 'W') 'G' = (['W'], 'G') ∧
    processStep ([], nullCmd) 'N' = ([], 'N') :=
  ⟨diagonal_rewriter_greedy.1 [] 'N' 'E' (by decide) (by decide) (by decide),
   diagonal_rewriter_greedy.2.1 [] 'E' 'E' (by decide) (by decide) (by decide),
   diagonal_rewriter_greedy.2.2.1 [] 'W' 'G' (by decide) (by decide),
   diagonal_rewriter_greedy.2.2.2.1 [] 'N'⟩

/-- Arithmetic of the Go `uint` model: decrement undoes increment for any
representable coordinate (including the wrap at `2 ^ 64 - 1`). -/
theorem udec_uinc (a : Nat) (ha : a < U64) : udec (uinc a) = a := by
  unfold uinc udec
  rw [Nat.mod_add_mod]
  have h2 : a + 1 + (U64 - 1) = a + U64 := by unfold U64; omega
  rw [h2, Nat.add_mod_right, Nat.mod_eq_of_lt ha]

/-- C5: parsing never rejects a program (`parseCommands` is total and keeps
unrecognised characters); a character outside the recognised alphabet
surfaces as the unknown-command error only when execution reaches it: every
command before it runs (the final state is exactly the state `(w1, st1)`
produced by the prefix), the task terminates with that error, and the
commands after the offending position are never executed (the result does
not depend on `post`). -/
theorem unknown_command_aborts (cp : Bool) (rid : String) (w : Warehouse) (st : RobotState)
    (pre post : List Char) (c : Char) (w1 : Warehouse) (st1 : RobotState)
    (hc : c ∉ recognisedCmds)
    (hpre : runCommands cp rid w st pre = (.ok (), w1, st1)) :
    runCommands cp rid w st (pre ++ c :: post) = (.error (.unknownCommand c), w1, st1) := by
  rw [runCommands_append_ok hpre]
  simp only [runCommands]
  rw [executeCommand_unknown cp rid w1 st1 c hc]

/-- Witness for C5: in the task `N X E` the robot executes `N`, aborts on
`X` with the unknown-command error, and never executes `E`. -/
theorem unknown_command_aborts_witness :
    runCommands false "R1" { NewWarehouse with gridyx := gridSet NewWarehouse.gridyx 5 5 "R1" }
        ⟨5, 5, false⟩ (['N'] ++ 'X' :: ['E']) =
      (.error (.unknownCommand 'X'),
       (runCommands false "R1" { NewWarehouse with gridyx := gridSet NewWarehouse.gridyx 5 5 "R1" }
          ⟨5, 5, false⟩ ['N']).2.1,
       (runCommands false "R1" { NewWarehouse with gridyx := gridSet NewWarehouse.gridyx 5 5 "R1" }
          ⟨5, 5, false⟩ ['N']).2.2) :=
  unknown_command_aborts false "R1" _ ⟨5, 5, false⟩ ['N'] ['E'] 'X' _ _ (by decide) rfl

/-- C8: whenever the four-command program `N E S W` executes without any
error (no boundary violation and no collision), the robot ends exactly in
its starting state: same position and same carrying flag. -/
theorem nesw_round_trip (cp : Bool) (rid : String) (w : Warehouse) (st : RobotState)
    (hx : st.X < U64) (hy : st.Y < U64) (w1 : Warehouse) (st1 : RobotState)
    (h : runCommands cp rid w st ['N', 'E', 'S', 'W'] = (.ok (), w1, st1)) :
    st1 = st := by
  obtain ⟨wa, sa, hA, h⟩ := runCommands_cons_ok h
  obtain ⟨wb, sb, hB, h⟩ := runCommands_cons_ok h
  obtain ⟨wc, sc, hC, h⟩ := runCommands_cons_ok h
  obtain ⟨wd, sd, hD, h⟩ := runCommands_cons_ok h
  rw [executeCommand_N] at hA
  obtain ⟨-, -, -, -, hsa⟩ := finishMove_ok hA
  subst hsa
  rw [executeCommand_E] at hB
  obtain ⟨-, -, -, -, hsb⟩ := finishMove_ok hB
  subst hsb
  rw [executeCommand_S] at hC
  obtain ⟨-, -, -, -, hsc⟩ := finishMove_ok hC
  subst hsc
  rw [executeCommand_W] at hD
  obtain ⟨-, -, -, -, hsd⟩ := finishMove_ok hD
  subst hsd
  simp only [runCommands] at h
  have hst : st1 = ⟨udec (uinc st.X), udec (uinc st.Y), st.HasCrate⟩ :=
    (congrArg (fun p => p.2.2) h).symm
  rw [hst, udec_uinc st.X hx, udec_uinc st.Y hy]

/-- Witness for C8: the round trip `N E S W` from `(0, 0)` on an otherwise
empty warehouse succeeds and restores the initial robot state. -/
theorem nesw_round_trip_witness :
    (runCommands false "R1" { NewWarehouse with gridyx := gridSet NewWarehouse.gridyx 0 0 "R1" }
        ⟨0, 0, false⟩ ['N', 'E', 'S', 'W']).1 = .ok () ∧
    (runCommands false "R1" { NewWarehouse with gridyx := gridSet NewWarehouse.gridyx 0 0 "R1" }
        ⟨0, 0, false⟩ ['N', 'E', 'S', 'W']).2.2 = ⟨0, 0, false⟩ :=
  ⟨rfl,
   nesw_round_trip false "R1"
     { NewWarehouse with gridyx := gridSet NewWarehouse.gridyx 0 0 "R1" }
     ⟨0, 0, false⟩ (by decide) (by decide) _ _ rfl⟩

/-- C9: a successful `G` (pickup) or `D` (drop) command leaves the robot's
coordinates, the whole occupancy grid and the robot registry unchanged
(given that the robot occupies its own grid cell, which is the occupancy
invariant), and flips exactly the crate bit at the robot's cell and the
carrying flag, in opposite directions: `G` turns the cell off and the flag
on, `D` the inverse; every other crate cell is untouched. -/
theorem crate_command_frame (cp : Bool) (rid : String) (w : Warehouse) (st : RobotState)
    (hgrid : w.gridyx st.Y st.X = rid) :
    (∀ w1 st1, executeCommand cp rid w st 'G' = (.ok (), w1, st1) →
       st1.X = st.X ∧ st1.Y = st.Y ∧ w1.gridyx = w.gridyx ∧ w1.robots = w.robots ∧
       st.HasCrate = false ∧ st1.HasCrate = true ∧
       w.cratesyx st.Y st.X = true ∧ w1.cratesyx st.Y st.X = false ∧
       (∀ y x, ¬(y = st.Y ∧ x = st.X) → w1.cratesyx y x = w.cratesyx y x)) ∧
    (∀ w1 st1, executeCommand cp rid w st 'D' = (.ok (), w1, st1) →
       st1.X = st.X ∧ st1.Y = st.Y ∧ w1.gridyx = w.gridyx ∧ w1.robots = w.robots ∧
       st.HasCrate = true ∧ st1.HasCrate = false ∧
       w.cratesyx st.Y st.X = false ∧ w1.cratesyx st.Y st.X = true ∧
       (∀ y x, ¬(y = st.Y ∧ x = st.X) → w1.cratesyx y x = w.cratesyx y x)) := by
  constructor
  · intro w1 st1 h
    rw [executeCommand_G] at h
    split at h
    · exact absurd (congrArg (fun p => p.1) h) (by simp)
    · rcases hg : grabCrate w st with e | pz
      · rw [hg] at h
        exact absurd (congrArg (fun p => p.1) h) (by simp)
      · obtain ⟨wz, stz⟩ := pz
        rw [hg] at h
        unfold grabCrate at hg
        split at hg
        · exact absurd hg (by simp)
        · split at hg
          · exact absurd hg (by simp)
          · rename_i hHas hCrate
            have hHas2 : st.HasCrate = false := by
              revert hHas
              cases st.HasCrate <;> simp
            have hCrate2 : w.cratesyx st.Y st.X = true := not_not.mp hCrate
            have hwz : wz = { w with cratesyx := crateSet w.cratesyx st.Y st.X false } :=
              (congrArg (fun q => q.1) (Except.ok.inj hg)).symm
            have hstz : stz = { st with HasCrate := true } :=
              (congrArg (fun q => q.2) (Except.ok.inj hg)).symm
            subst hwz
            subst hstz
            obtain ⟨-, -, -, hw1, hst1⟩ := finishMove_ok h
            subst hw1
            subst hst1
            refine ⟨rfl, rfl, gridSet_clear_set w.gridyx st.Y st.X rid hgrid, rfl,
              hHas2, rfl, hCrate2, crateSet_same .., ?_⟩
            intro y x hne
            exact crateSet_other w.cratesyx st.Y st.X false y x hne
  · intro w1 st1 h
    rw [executeCommand_D] at h
    split at h
    · exact absurd (congrArg (fun p => p.1) h) (by simp)
    · rcases hg : dropCrate w st with e | pz
      · rw [hg] at h
        exact absurd (congrArg (fun p => p.1) h) (by simp)
      · obtain ⟨wz, stz⟩ := pz
        rw [hg] at h
        unfold dropCrate at hg
        split at hg
        · exact absurd hg (by simp)
        · split at hg
          · exact absurd hg (by simp)
          · rename_i hHas hCrate
            have hHas2 : st.HasCrate = true := not_not.mp hHas
            have hCrate2 : w.cratesyx st.Y st.X = false := by
              revert hCrate
              cases w.cratesyx st.Y st.X <;> simp
            have hwz : wz = { w with cratesyx := crateSet w.cratesyx st.Y st.X true } :=
              (congrArg (fun q => q.1) (Except.ok.inj hg)).symm
            have hstz : stz = { st with HasCrate := false } :=
              (congrArg (fun q => q.2) (Except.ok.inj hg)).symm
            subst hwz
            subst hstz
            obtain ⟨-, -, -, hw1, hst1⟩ := finishMove_ok h
            subst hw1
            subst hst1
            refine ⟨rfl, rfl, gridSet_clear_set w.gridyx st.Y st.X rid hgrid, rfl,
              hHas2, rfl, hCrate2, crateSet_same .., ?_⟩
            intro y x hne
            exact crateSet_other w.cratesyx st.Y st.X true y x hne

/-- Witness for C9: a pickup at `(0, 0)` on a warehouse holding a crate
there sets the carrying flag and clears the crate cell. -/
theorem crate_command_frame_witness :
    (executeCommand true "R1"
      { NewWarehouse with gridyx := gridSet NewWarehouse.gridyx 0 0 "R1",
                          cratesyx := crateSet NewWarehouse.cratesyx 0 0 true }
      ⟨0, 0, false⟩ 'G').2.2.HasCrate = true ∧
    (executeCommand true "R1"
      { NewWarehouse with gridyx := gridSet NewWarehouse.gridyx 0 0 "R1",
                          cratesyx := crateSet NewWarehouse.cratesyx 0 0 true }
      ⟨0, 0, false⟩ 'G').2.1.cratesyx 0 0 = false := by
  have h := (crate_command_frame true "R1"
      { NewWarehouse with gridyx := gridSet NewWarehouse.gridyx 0 0 "R1",
                          cratesyx := crateSet NewWarehouse.cratesyx 0 0 true }
      ⟨0, 0, false⟩ rfl).1
    (executeCommand true "R1"
      { NewWarehouse with gridyx := gridSet NewWarehouse.gridyx 0 0 "R1",
                          cratesyx := crateSet NewWarehouse.cratesyx 0 0 true }
      ⟨0, 0, false⟩ 'G').2.1
    (executeCommand true "R1"
      { NewWarehouse with gridyx := gridSet NewWarehouse.gridyx 0 0 "R1",
                          cratesyx := crateSet NewWarehouse.cratesyx 0 0 true }
      ⟨0, 0, false⟩ 'G').2.2
    rfl
  exact ⟨h.2.2.2.2.2.1, h.2.2.2.2.2.2.2.1⟩

/-- Lookup after removing every entry with the looked-up key yields nothing. -/
theorem lookup_filter_self (taskID : String) (chans : List (String × Bool)) :
    List.lookup taskID (chans.filter (fun p => p.1 ≠ taskID)) = none := by
  induction chans with
  | nil => rfl
  | cons p rest ih =>
    obtain ⟨a, b⟩ := p
    by_cases hp : a = taskID
    · simp only [List.filter_cons]
      rw [if_neg (by simp [hp])]
      exact ih
    · simp only [List.filter_cons]
      rw [if_pos (by simp [hp])]
      have hb : (taskID == a) = false := by
        simp only [beq_eq_false_iff_ne]
        exact fun h => hp h.symm
      rw [List.lookup, hb]
      exact ih

/-- C7 counterexample: cancelling an unknown task id fails with the inline
`errors.New` value of `CancelTask`, which is distinct by identity from the
`ErrTaskNotFound` sentinel of librobot_errors.go; the claim that the failure
is the `TaskNotFound` error kind (errors being distinguishable by identity)
is therefore false at this input. -/
theorem cancelTask_error_identity_counterexample :
    CancelTask [] "t1" = .error .cancelTaskNotFound ∧
    LibError.cancelTaskNotFound ≠ LibError.taskNotFound ∧
    CancelTask [] "t1" ≠ .error .taskNotFound := by
  decide

/-- C7 (amended): cancelling an unknown task id, or one already cancelled
(and hence removed from the tracking map), fails with a task-not-found error
— the inline `errors.New` value, distinct by identity from the
`ErrTaskNotFound` sentinel — while the first cancellation of a tracked task
succeeds, removes it from the map, and latches its cancellation signal
closed no matter the signal's prior state. -/
theorem cancelTask_semantics (chans : List (String × Bool)) (taskID : String) :
    (List.lookup taskID chans = none → CancelTask chans taskID = .error .cancelTaskNotFound) ∧
    (∀ b, List.lookup taskID chans = some b →
       CancelTask chans taskID = .ok (chans.filter (fun p => p.1 ≠ taskID), true) ∧
       CancelTask (chans.filter (fun p => p.1 ≠ taskID)) taskID = .error .cancelTaskNotFound) := by
  constructor
  · intro hnone
    unfold CancelTask
    rw [hnone]
  · intro b hsome
    constructor
    · unfold CancelTask
      rw [hsome]
      cases b <;> rfl
    · unfold CancelTask
      rw [lookup_filter_self]

/-- Witness for C7: the first cancellation of the tracked task succeeds with
a latched signal; re-cancelling it, and cancelling on an empty map, fail. -/
theorem cancelTask_semantics_witness :
    CancelTask [("t1", false)] "t1" = .ok ([], true) ∧
    CancelTask [] "t1" = .error .cancelTaskNotFound := by
  have h := (cancelTask_semantics [("t1", false)] "t1").2 false (by decide)
  exact ⟨by simpa using h.1, (cancelTask_semantics [] "t1").1 (by decide)⟩

/-- Lookup of a key absent from the key list yields nothing. -/
theorem lookup_none_of_fresh {k : String} :
    ∀ {l : List (String × RobotState)}, k ∉ l.map Prod.fst → List.lookup k l = none := by
  intro l
  induction l with
  | nil => intro h; rfl
  | cons p rest ih =>
    intro h
    obtain ⟨a, b⟩ := p
    simp only [List.map_cons, List.mem_cons, not_or] at h
    have hb : (k == a) = false := by
      simp only [beq_eq_false_iff_ne]
      exact h.1
    rw [List.lookup, hb]
    exact ih h.2

/-- A successful lookup names an entry of the list. -/
theorem mem_of_lookup {k : String} {v : RobotState} :
    ∀ {l : List (String × RobotState)}, List.lookup k l = some v → (k, v) ∈ l := by
  intro l
  induction l with
  | nil => intro h; exact Option.noConfusion h
  | cons p rest ih =>
    intro h
    obtain ⟨a, b⟩ := p
    rw [List.lookup] at h
    cases hb : (k == a) with
    | true =>
      rw [hb] at h
      cases Option.some.inj h
      have hk : k = a := by simpa using hb
      subst hk
      exact List.mem_cons_self ..
    | false =>
      rw [hb] at h
      exact List.mem_cons_of_mem _ (ih h)

/-- Updating one robot's registry entry does not change the key list. -/
theorem setRobot_keys (l : List (String × RobotState)) (rid : String) (st : RobotState) :
    (setRobot l rid st).map Prod.fst = l.map Prod.fst := by
  induction l with
  | nil => rfl
  | cons p rest ih =>
    obtain ⟨a, b⟩ := p
    by_cases hp : a = rid <;>
      simp only [setRobot, List.map_cons, hp, reduceIte] at ih ⊢ <;>
      rw [ih]

/-- Lookup in an updated registry. -/
theorem setRobot_lookup (l : List (String × RobotState)) (rid : String) (st : RobotState)
    (k : String) :
    List.lookup k (setRobot l rid st) =
      if k = rid then (List.lookup rid l).map (fun _ => st) else List.lookup k l := by
  induction l with
  | nil => by_cases hk : k = rid <;> simp [setRobot, List.lookup, hk]
  | cons p rest ih =>
    obtain ⟨a, b⟩ := p
    have hhead : (setRobot ((a, b) :: rest) rid st) =
        (if a = rid then (rid, st) else (a, b)) :: setRobot rest rid st := rfl
    rw [hhead]
    by_cases ha : a = rid
    · subst ha
      rw [if_pos rfl]
      by_cases hk : k = a
      · subst hk
        simp [List.lookup]
      · have hb : (k == a) = false := by
          simp only [beq_eq_false_iff_ne]
          exact hk
        simp [List.lookup, hb, ih, hk]
    · rw [if_neg ha]
      by_cases hk : k = a
      · subst hk
        have hkr : ¬ k = rid := ha
        simp [List.lookup, hkr]
      · have hb : (k == a) = false := by
          simp only [beq_eq_false_iff_ne]
          exact hk
        by_cases hkr : k = rid
        · subst hkr
          simp [List.lookup, hb, ih]
        · simp [List.lookup, hb, ih, hkr]

/-- Shape of the movement tail seen through projections: it preserves the
registry and crates, and either rejects (leaving grid and state as given) or
commits the joint grid-and-position update to an in-bounds, non-conflicting
target. -/
theorem finishMove_shape (rid : String) (cx cy nx ny : Nat) (w : Warehouse) (st : RobotState) :
    (finishMove rid cx cy nx ny w st).2.1.robots = w.robots ∧
    (finishMove rid cx cy nx ny w st).2.1.cratesyx = w.cratesyx ∧
    (((finishMove rid cx cy nx ny w st).2.1.gridyx = w.gridyx ∧
      (finishMove rid cx cy nx ny w st).2.2.X = st.X ∧
      (finishMove rid cx cy nx ny w st).2.2.Y = st.Y) ∨
     (nx ≤ GridSize ∧ ny ≤ GridSize ∧
      (w.gridyx ny nx = "" ∨ w.gridyx ny nx = rid) ∧
      (finishMove rid cx cy nx ny w st).2.1.gridyx =
        gridSet (gridSet w.gridyx cy cx "") ny nx rid ∧
      (finishMove rid cx cy nx ny w st).2.2.X = nx ∧
      (finishMove rid cx cy nx ny w st).2.2.Y = ny ∧
      (finishMove rid cx cy nx ny w st).2.2.HasCrate = st.HasCrate)) := by
  unfold finishMove
  split
  · exact ⟨rfl, rfl, Or.inl ⟨rfl, rfl, rfl⟩⟩
  · split
    · exact ⟨rfl, rfl, Or.inl ⟨rfl, rfl, rfl⟩⟩
    · rename_i h1 h2
      push_neg at h1 h2
      refine ⟨rfl, rfl, Or.inr ⟨?_, ?_, ?_, rfl, rfl, rfl, rfl⟩⟩
      · exact le_trans h1.1 (by decide)
      · exact le_trans h1.2.1 (by decide)
      · by_cases hv : w.gridyx ny nx = ""
        · exact Or.inl hv
        · exact Or.inr (h2 hv)

/-- Shape of `executeCommand` seen through projections: the registry is never
touched, and the grid/position either stay put or change by the joint
clear-old-set-new update of a single in-bounds, non-conflicting target. -/
theorem executeCommand_shape (cp : Bool) (rid : String) (w : Warehouse) (st : RobotState)
    (cmd : Char) :
    (executeCommand cp rid w st cmd).2.1.robots = w.robots ∧
    (((executeCommand cp rid w st cmd).2.1.gridyx = w.gridyx ∧
      (executeCommand cp rid w st cmd).2.2.X = st.X ∧
      (executeCommand cp rid w st cmd).2.2.Y = st.Y) ∨
     (∃ nx ny, nx ≤ GridSize ∧ ny ≤ GridSize ∧
        (w.gridyx ny nx = "" ∨ w.gridyx ny nx = rid) ∧
        (executeCommand cp rid w st cmd).2.1.gridyx =
          gridSet (gridSet w.gridyx st.Y st.X "") ny nx rid ∧
        (executeCommand cp rid w st cmd).2.2.X = nx ∧
        (executeCommand cp rid w st cmd).2.2.Y = ny)) := by
  have hmove : ∀ nx ny,
      executeCommand cp rid w st cmd = finishMove rid st.X st.Y nx ny w st →
      ((executeCommand cp rid w st cmd).2.1.robots = w.robots ∧
       (((executeCommand cp rid w st cmd).2.1.gridyx = w.gridyx ∧
         (executeCommand cp rid w st cmd).2.2.X = st.X ∧
         (executeCommand cp rid w st cmd).2.2.Y = st.Y) ∨
        (∃ nx2 ny2, nx2 ≤ GridSize ∧ ny2 ≤ GridSize ∧
           (w.gridyx ny2 nx2 = "" ∨ w.gridyx ny2 nx2 = rid) ∧
           (executeCommand cp rid w st cmd).2.1.gridyx =
             gridSet (gridSet w.gridyx st.Y st.X "") ny2 nx2 rid ∧
           (executeCommand cp rid w st cmd).2.2.X = nx2 ∧
           (executeCommand cp rid w st cmd).2.2.Y = ny2))) := by
    intro nx ny hEq
    rw [hEq]
    obtain ⟨hr, -, hd⟩ := finishMove_shape rid st.X st.Y nx ny w st
    refine ⟨hr, ?_⟩
    rcases hd with ⟨hg, hsx, hsy⟩ | ⟨hb1, hb2, hfree, hg, hx, hy, -⟩
    · exact Or.inl ⟨hg, hsx, hsy⟩
    · exact Or.inr ⟨nx, ny, hb1, hb2, hfree, hg, hx, hy⟩
  by_cases h1 : cmd = 'N'
  · subst h1; exact hmove st.X (uinc st.Y) (executeCommand_N ..)
  by_cases h2 : cmd = 'S'
  · subst h2; exact hmove st.X (udec st.Y) (executeCommand_S ..)
  by_cases h3 : cmd = 'E'
  · subst h3; exact hmove (uinc st.X) st.Y (executeCommand_E ..)
  by_cases h4 : cmd = 'W'
  · subst h4; exact hmove (udec st.X) st.Y (executeCommand_W ..)
  by_cases h5 : cmd = MoveNorthEast
  · subst h5; exact hmove (uinc st.X) (uinc st.Y) (executeCommand_NE ..)
  by_cases h6 : cmd = MoveNorthWest
  · subst h6; exact hmove (udec st.X) (uinc st.Y) (executeCommand_NW ..)
  by_cases h7 : cmd = MoveSouthEast
  · subst h7; exact hmove (uinc st.X) (udec st.Y) (executeCommand_SE ..)
  by_cases h8 : cmd = MoveSouthWest
  · subst h8; exact hmove (udec st.X) (udec st.Y) (executeCommand_SW ..)
  by_cases h9 : cmd = 'G'
  · subst h9
    rw [executeCommand_G]
    split
    · exact ⟨rfl, Or.inl ⟨rfl, rfl, rfl⟩⟩
    · rcases hg : grabCrate w st with e | pz
      · exact ⟨rfl, Or.inl ⟨rfl, rfl, rfl⟩⟩
      · obtain ⟨wz, stz⟩ := pz
        unfold grabCrate at hg
        split at hg
        · exact absurd hg (by simp)
        · split at hg
          · exact absurd hg (by simp)
          · have hwz : wz = { w with cratesyx := crateSet w.cratesyx st.Y st.X false } :=
              (congrArg (fun q => q.1) (Except.ok.inj hg)).symm
            have hstz : stz = { st with HasCrate := true } :=
              (congrArg (fun q => q.2) (Except.ok.inj hg)).symm
            subst hwz
            subst hstz
            obtain ⟨hr, -, hd⟩ :=
              finishMove_shape rid st.X st.Y st.X st.Y
                { w with cratesyx := crateSet w.cratesyx st.Y st.X false }
                { st with HasCrate := true }
            refine ⟨hr, ?_⟩
            rcases hd with ⟨hgr, hsx, hsy⟩ | ⟨hb1, hb2, hfree, hgr, hx, hy, -⟩
            · exact Or.inl ⟨hgr, hsx, hsy⟩
            · exact Or.inr ⟨st.X, st.Y, hb1, hb2, hfree, hgr, hx, hy⟩
  by_cases h10 : cmd = 'D'
  · subst h10
    rw [executeCommand_D]
    split
    · exact ⟨rfl, Or.inl ⟨rfl, rfl, rfl⟩⟩
    · rcases hg : dropCrate w st with e | pz
      · exact ⟨rfl, Or.inl ⟨rfl, rfl, rfl⟩⟩
      · obtain ⟨wz, stz⟩ := pz
        unfold dropCrate at hg
        split at hg
        · exact absurd hg (by simp)
        · split at hg
          · exact absurd hg (by simp)
          · have hwz : wz = { w with cratesyx := crateSet w.cratesyx st.Y st.X true } :=
              (congrArg (fun q => q.1) (Except.ok.inj hg)).symm
            have hstz : stz = { st with HasCrate := false } :=
              (congrArg (fun q => q.2) (Except.ok.inj hg)).symm
            subst hwz
            subst hstz
            obtain ⟨hr, -, hd⟩ :=
              finishMove_shape rid st.X st.Y st.X st.Y
                { w with cratesyx := crateSet w.cratesyx st.Y st.X true }
                { st with HasCrate := false }
            refine ⟨hr, ?_⟩
            rcases hd with ⟨hgr, hsx, hsy⟩ | ⟨hb1, hb2, hfree, hgr, hx, hy, -⟩
            · exact Or.inl ⟨hgr, hsx, hsy⟩
            · exact Or.inr ⟨st.X, st.Y, hb1, hb2, hfree, hgr, hx, hy⟩
  rw [executeCommand_unknown cp rid w st cmd
    (by simp [recognisedCmds, h1, h2, h3, h4, h5, h6, h7, h8, h9, h10])]
  exact ⟨rfl, Or.inl ⟨rfl, rfl, rfl⟩⟩

/-- With distinct keys, membership determines lookup. -/
theorem lookup_of_mem_nodup {l : List (String × RobotState)}
    (hN : (l.map Prod.fst).Nodup) {a : String} {b : RobotState}
    (h : (a, b) ∈ l) : List.lookup a l = some b := by
  induction l with
  | nil => cases h
  | cons p rest ih =>
    obtain ⟨c, d⟩ := p
    have hN2 : c ∉ rest.map Prod.fst ∧ (rest.map Prod.fst).Nodup := by
      rw [List.map_cons, List.nodup_cons] at hN
      exact hN
    rcases List.mem_cons.mp h with heq | hmem
    · cases heq
      simp [List.lookup]
    · have hak : a ∈ rest.map Prod.fst := List.mem_map.mpr ⟨(a, b), hmem, rfl⟩
      have hac : ¬ a = c := fun he => hN2.1 (he ▸ hak)
      have hb : (a == c) = false := beq_eq_false_iff_ne.mpr hac
      rw [List.lookup, hb]
      exact ih hN2.2 hmem

/-- C1: the occupancy invariant is preserved by every mutating operation:
admission (which registers the handle and marks the grid in one step, under
the hypotheses that the generated uuid is fresh and non-empty) and every
command executed by a registered robot, movements and crate commands alike,
whether they succeed or fail.  The third conjunct states the particulars for
a successful move: the new cell holds the robot's id, the old cell is
cleared whenever the position changed, and the registry and carrying flag
are untouched — position, old cell and new cell change together. -/
theorem occupancy_invariant (w : Warehouse) :
    (∀ x y rid wA, OccInv w → rid ≠ "" → rid ∉ w.robots.map Prod.fst →
       AddRobot w x y rid = .ok wA →
       OccInv wA ∧ List.lookup rid wA.robots = some ⟨x, y, false⟩ ∧ wA.gridyx y x = rid) ∧
    (∀ cp rid cmd, OccInv w → OccInv (stepRobot cp w rid cmd).2) ∧
    (∀ cp rid st cmd w1 st1, cmd ∈ movementCmds →
       executeCommand cp rid w st cmd = (.ok (), w1, st1) →
       w1.gridyx st1.Y st1.X = rid ∧
       (¬(st.Y = st1.Y ∧ st.X = st1.X) → w1.gridyx st.Y st.X = "") ∧
       w1.robots = w.robots ∧ st1.HasCrate = st.HasCrate) := by
  refine ⟨?_, ?_, ?_⟩
  · -- admission
    intro x y rid wA hInv hne hfresh hAdd
    unfold AddRobot at hAdd
    split at hAdd
    · exact absurd hAdd (by simp)
    · split at hAdd
      · exact absurd hAdd (by simp)
      · rename_i hB hEmpty
        push_neg at hB
        have hEmpty2 : w.gridyx y x = "" := not_not.mp hEmpty
        have hwA : wA =
            { w with robots := (rid, ⟨x, y, false⟩) :: w.robots, gridyx := gridSet w.gridyx y x rid } :=
          (Except.ok.inj hAdd).symm
        subst hwA
        obtain ⟨hNodup, hRob, hCell⟩ := hInv
        refine ⟨⟨?_, ?_, ?_⟩, by simp [List.lookup], gridSet_same ..⟩
        · simp only [List.map_cons]
          exact List.nodup_cons.mpr ⟨hfresh, hNodup⟩
        · intro p hp
          rcases List.mem_cons.mp hp with rfl | hp2
          · exact ⟨hne, hB.1, hB.2, gridSet_same ..⟩
          · obtain ⟨hp1, hpx, hpy, hpg⟩ := hRob p hp2
            refine ⟨hp1, hpx, hpy, ?_⟩
            dsimp only
            rw [gridSet_other]
            · exact hpg
            · intro hcc
              obtain ⟨hcy, hcx⟩ := hcc
              rw [hcy, hcx] at hpg
              exact hp1 (hpg.symm.trans hEmpty2)
        · intro cy hcy cx hcx hnz
          unfold cellOwned
          dsimp only at hnz ⊢
          by_cases hcell : cy = y ∧ cx = x
          · obtain ⟨rfl, rfl⟩ := hcell
            rw [show (gridSet w.gridyx cy cx rid : Nat → Nat → String) cy cx = rid
              from gridSet_same ..]
            exact ⟨⟨cx, cy, false⟩, by simp [List.lookup], rfl, rfl⟩
          · rw [show (gridSet w.gridyx y x rid : Nat → Nat → String) cy cx = w.gridyx cy cx
              from gridSet_other _ _ _ _ _ _ hcell] at hnz ⊢
            obtain ⟨stq, hq, hqx, hqy⟩ := hCell cy hcy cx hcx hnz
            refine ⟨stq, ?_, hqx, hqy⟩
            have hvr : w.gridyx cy cx ≠ rid := by
              intro hv
              rw [hv, lookup_none_of_fresh hfresh] at hq
              exact Option.noConfusion hq
            rw [List.lookup, beq_eq_false_iff_ne.mpr hvr]
            exact hq
  · -- one executed command of a registered robot
    intro cp rid cmd hInv
    unfold stepRobot
    rcases hlook : List.lookup rid w.robots with _ | st
    · exact hInv
    · rcases hx : executeCommand cp rid w st cmd with ⟨res, w1, st1⟩
      obtain ⟨hrob, hdisj⟩ := executeCommand_shape cp rid w st cmd
      rw [hx] at hrob hdisj
      dsimp only at hrob hdisj ⊢
      have hmem : (rid, st) ∈ w.robots := mem_of_lookup hlook
      obtain ⟨hNodup, hRob, hCell⟩ := hInv
      obtain ⟨hrne, hrx, hry, hrg⟩ := hRob (rid, st) hmem
      rw [hx]
      dsimp only
      rw [hrob]
      rcases hdisj with ⟨hgr, hsx, hsy⟩ | ⟨nx, ny, hbx, hby, hfree, hgr, hx1, hy1⟩
      · -- state kept its cell
        refine ⟨?_, ?_, ?_⟩
        · rw [setRobot_keys]
          exact hNodup
        · intro p hp
          obtain ⟨q, hq, hfq⟩ := List.mem_map.mp hp
          by_cases hq1 : q.1 = rid
          · obtain ⟨q1, q2⟩ := q
            rw [if_pos hq1] at hfq
            subst hfq
            have hq2 : q2 = st := by
              have := lookup_of_mem_nodup hNodup (hq1 ▸ hq : (rid, q2) ∈ w.robots)
              rw [hlook] at this
              exact (Option.some.inj this).symm
            refine ⟨hrne, ?_, ?_, ?_⟩
            · rw [hsx]; exact hrx
            · rw [hsy]; exact hry
            · rw [hgr, hsx, hsy]; exact hrg
          · rw [if_neg hq1] at hfq
            subst hfq
            obtain ⟨hp1, hpx, hpy, hpg⟩ := hRob q hq
            exact ⟨hp1, hpx, hpy, by rw [hgr]; exact hpg⟩
        · intro cy hcy cx hcx hnz
          rw [hgr] at hnz ⊢
          obtain ⟨stq, hq, hqx, hqy⟩ := hCell cy hcy cx hcx hnz
          rw [cellOwned] at *
          by_cases hvr : w.gridyx cy cx = rid
          · refine ⟨st1, ?_, ?_, ?_⟩
            · dsimp only
              rw [hvr, setRobot_lookup, if_pos rfl, hlook]
              rfl
            · rw [hsx]
              rw [hvr, hlook] at hq
              cases Option.some.inj hq
              exact hqx
            · rw [hsy]
              rw [hvr, hlook] at hq
              cases Option.some.inj hq
              exact hqy
          · refine ⟨stq, ?_, hqx, hqy⟩
            dsimp only
            rw [setRobot_lookup, if_neg hvr]
            exact hq
      · -- the robot moved its cell
        refine ⟨?_, ?_, ?_⟩
        · rw [setRobot_keys]
          exact hNodup
        · intro p hp
          obtain ⟨q, hq, hfq⟩ := List.mem_map.mp hp
          by_cases hq1 : q.1 = rid
          · obtain ⟨q1, q2⟩ := q
            rw [if_pos hq1] at hfq
            subst hfq
            refine ⟨hrne, ?_, ?_, ?_⟩
            · rw [hx1]; exact hbx
            · rw [hy1]; exact hby
            · rw [hgr, hx1, hy1]
              exact gridSet_same ..
          · rw [if_neg hq1] at hfq
            subst hfq
            obtain ⟨hp1, hpx, hpy, hpg⟩ := hRob q hq
            refine ⟨hp1, hpx, hpy, ?_⟩
            rw [hgr]
            have hqnn : ¬(q.2.Y = ny ∧ q.2.X = nx) := by
              intro hcc
              obtain ⟨h1, h2⟩ := hcc
              rw [h1, h2] at hpg
              rcases hfree with hf | hf
              · exact hp1 (hpg.symm.trans hf)
              · exact hq1 (hpg.symm.trans hf)
            have hqnc : ¬(q.2.Y = st.Y ∧ q.2.X = st.X) := by
              intro hcc
              obtain ⟨h1, h2⟩ := hcc
              rw [h1, h2] at hpg
              exact hq1 (hpg.symm.trans hrg)
            rw [gridSet_other _ _ _ _ _ _ hqnn, gridSet_other _ _ _ _ _ _ hqnc]
            exact hpg
        · intro cy hcy cx hcx hnz
          rw [cellOwned] at *
          dsimp only at hnz ⊢
          rw [hgr] at hnz ⊢
          by_cases h1 : cy = ny ∧ cx = nx
          · obtain ⟨rfl, rfl⟩ := h1
            rw [gridSet_same]
            refine ⟨st1, ?_, ?_, ?_⟩
            · rw [setRobot_lookup, if_pos rfl, hlook]
              rfl
            · exact hx1
            · exact hy1
          · rw [gridSet_other _ _ _ _ _ _ h1] at hnz ⊢
            by_cases h2 : cy = st.Y ∧ cx = st.X
            · exact absurd (gridSet_same ..) ((h2.1 ▸ h2.2 ▸ hnz : _))
            · rw [gridSet_other _ _ _ _ _ _ h2] at hnz ⊢
              obtain ⟨stq, hq, hqx, hqy⟩ := hCell cy hcy cx hcx hnz
              have hvr : w.gridyx cy cx ≠ rid := by
                intro hv
                rw [hv, hlook] at hq
                cases Option.some.inj hq
                exact h2 ⟨hqy.symm, hqx.symm⟩
              refine ⟨stq, ?_, hqx, hqy⟩
              rw [setRobot_lookup, if_neg hvr]
              exact hq
  · -- particulars of a successful movement
    intro cp rid st cmd w1 st1 hc h
    have key : ∀ nx ny, finishMove rid st.X st.Y nx ny w st = (.ok (), w1, st1) →
        w1.gridyx st1.Y st1.X = rid ∧
        (¬(st.Y = st1.Y ∧ st.X = st1.X) → w1.gridyx st.Y st.X = "") ∧
        w1.robots = w.robots ∧ st1.HasCrate = st.HasCrate := by
      intro nx ny hf
      obtain ⟨-, -, -, hw1, hst1⟩ := finishMove_ok hf
      have hgy : w1.gridyx = gridSet (gridSet w.gridyx st.Y st.X "") ny nx rid := by rw [hw1]
      have hnx : st1.X = nx := by rw [hst1]
      have hny : st1.Y = ny := by rw [hst1]
      have hsh : st1.HasCrate = st.HasCrate := by rw [hst1]
      have hrb : w1.robots = w.robots := by rw [hw1]
      refine ⟨?_, ?_, hrb, hsh⟩
      · rw [hgy, hnx, hny]
        exact gridSet_same ..
      · intro hne
        rw [hny, hnx] at hne
        rw [hgy, gridSet_other _ _ _ _ _ _ hne, gridSet_same]
    simp only [movementCmds, List.mem_cons, List.not_mem_nil, or_false] at hc
    rcases hc with rfl | rfl | rfl | rfl | rfl | rfl | rfl | rfl
    · rw [executeCommand_N] at h; exact key _ _ h
    · rw [executeCommand_S] at h; exact key _ _ h
    · rw [executeCommand_E] at h; exact key _ _ h
    · rw [executeCommand_W] at h; exact key _ _ h
    · rw [executeCommand_NE] at h; exact key _ _ h
    · rw [executeCommand_NW] at h; exact key _ _ h
    · rw [executeCommand_SE] at h; exact key _ _ h
    · rw [executeCommand_SW] at h; exact key _ _ h

/-- Witness for C1: admitting a robot at `(2, 3)` into the empty warehouse
yields a warehouse satisfying the occupancy invariant, and one further
executed command preserves it. -/
theorem occupancy_invariant_witness :
    OccInv { NewWarehouse with robots := [("R1", ⟨2, 3, false⟩)], gridyx := gridSet NewWarehouse.gridyx 3 2 "R1" } ∧
    OccInv (stepRobot false { NewWarehouse with robots := [("R1", ⟨2, 3, false⟩)], gridyx := gridSet NewWarehouse.gridyx 3 2 "R1" } "R1" 'N').2 :=
  ⟨((occupancy_invariant NewWarehouse).1 2 3 "R1"
      { NewWarehouse with robots := [("R1", ⟨2, 3, false⟩)], gridyx := gridSet NewWarehouse.gridyx 3 2 "R1" }
      (by decide) (by decide) (by decide) rfl).1,
   (occupancy_invariant
      { NewWarehouse with robots := [("R1", ⟨2, 3, false⟩)], gridyx := gridSet NewWarehouse.gridyx 3 2 "R1" }).2.1
     false "R1" 'N' (by decide)⟩

theorem gridSet_overwrite (g : Nat → Nat → String) (y x : Nat) (v v2 : String) :
    gridSet (gridSet g y x v) y x v2 = gridSet g y x v2 := by
  funext y2 x2
  by_cases hc : y2 = y ∧ x2 = x <;> simp [gridSet, hc]

theorem gridSet_noop (g : Nat → Nat → String) (y x : Nat) (v : String) (h : g y x = v) :
    gridSet g y x v = g := by
  funext y2 x2
  by_cases hc : y2 = y ∧ x2 = x
  · obtain ⟨rfl, rfl⟩ := hc
    simp [gridSet, h]
  · simp [gridSet, hc]

theorem uinc_ne (a : Nat) (ha : a < U64) : uinc a ≠ a := by
  unfold uinc U64 at *
  omega

theorem udec_ne (a : Nat) (ha : a < U64) : udec a ≠ a := by
  unfold udec U64 at *
  omega

/-- The fold of `processStep` followed by the final flush computes the same
list as the recursive formulation. -/
theorem foldl_flush (cmds : List Char) :
    ∀ (out : List Char) (h : Char),
      flushAcc (cmds.foldl processStep (out, h)) = out ++ processRec h cmds := by
  induction cmds with
  | nil =>
    intro out h
    by_cases hn : (h != nullCmd) = true <;>
      simp [flushAcc, processRec, hn]
  | cons c cs ih =>
    intro out h
    rw [List.foldl_cons]
    cases hA : (h != nullCmd && isCardinal h && isCardinal c && isOrthogonal h c) with
    | false =>
      cases hN : (h != nullCmd) with
      | false =>
        simp only [processStep, processRec]
        rw [hA, hN]
        simp [ih]
      | true =>
        simp only [processStep, processRec]
        rw [hA, hN]
        simp [ih]
    | true =>
      cases hB1 : ((h == 'N' && c == 'E') || (h == 'E' && c == 'N')) with
      | true =>
        simp only [processStep, processRec]
        rw [hA, hB1]
        simp [ih]
      | false =>
        cases hB2 : ((h == 'N' && c == 'W') || (h == 'W' && c == 'N')) with
        | true =>
          simp only [processStep, processRec]
          rw [hA, hB1, hB2]
          simp [ih]
        | false =>
          cases hB3 : ((h == 'S' && c == 'E') || (h == 'E' && c == 'S')) with
          | true =>
            simp only [processStep, processRec]
            rw [hA, hB1, hB2, hB3]
            simp [ih]
          | false =>
            cases hB4 : ((h == 'S' && c == 'W') || (h == 'W' && c == 'S')) with
            | true =>
              simp only [processStep, processRec]
              rw [hA, hB1, hB2, hB3, hB4]
              simp [ih]
            | false =>
              simp only [processStep, processRec]
              rw [hA, hB1, hB2, hB3, hB4]
              simp [ih]

/-- `processCommands` equals its recursive formulation. -/
theorem processCommands_eq_rec (cmds : List Char) :
    processCommands cmds = processRec nullCmd cmds := by
  have h := foldl_flush cmds [] nullCmd
  simpa [flushAcc, processCommands] using h

/-- A successful command preserves the robot's properness and the
representability of its coordinates. -/
theorem exec_preserves (cp : Bool) (rid : String) (w : Warehouse) (st : RobotState)
    (cmd : Char) (w1 : Warehouse) (st1 : RobotState)
    (hP : Proper w rid st) (hx : st.X < U64) (hy : st.Y < U64)
    (h : executeCommand cp rid w st cmd = (.ok (), w1, st1)) :
    Proper w1 rid st1 ∧ st1.X < U64 ∧ st1.Y < U64 := by
  obtain ⟨hrne, hcell, hother⟩ := hP
  obtain ⟨-, hdisj⟩ := executeCommand_shape cp rid w st cmd
  rw [h] at hdisj
  dsimp only at hdisj
  rcases hdisj with ⟨hgr, hsx, hsy⟩ | ⟨nx, ny, hbx, hby, hfree, hgr, hx1, hy1⟩
  · refine ⟨⟨hrne, ?_, ?_⟩, ?_, ?_⟩
    · rw [hgr, hsx, hsy]; exact hcell
    · intro cy hcy cx hcx hne
      rw [hsy, hsx] at hne
      rw [hgr]
      exact hother cy hcy cx hcx hne
    · rw [hsx]; exact hx
    · rw [hsy]; exact hy
  · refine ⟨⟨hrne, ?_, ?_⟩, ?_, ?_⟩
    · rw [hgr, hx1, hy1]; exact gridSet_same ..
    · intro cy hcy cx hcx hne
      rw [hy1, hx1] at hne
      rw [hgr, gridSet_other _ _ _ _ _ _ hne]
      by_cases hc2 : cy = st.Y ∧ cx = st.X
      · obtain ⟨rfl, rfl⟩ := hc2
        rw [gridSet_same]
        exact fun hcontra => hrne hcontra.symm
      · rw [gridSet_other _ _ _ _ _ _ hc2]
        exact hother cy hcy cx hcx hc2
    · rw [hx1]; exact lt_of_le_of_lt hbx (by decide)
    · rw [hy1]; exact lt_of_le_of_lt hby (by decide)

/-- Fusing a vertical unit move followed by a horizontal one into a single
diagonal step: from a proper state, the combined move succeeds and produces
exactly the world and state of the two-step execution. -/
theorem fuse_vertical_horizontal (rid : String) (w0 : Warehouse) (st0 : RobotState)
    (w1 : Warehouse) (st1 : RobotState) (w2 : Warehouse) (st2 : RobotState)
    (fx fy : Nat → Nat)
    (hfx : fx st0.X ≠ st0.X) (hfy : fy st0.Y ≠ st0.Y)
    (hP : Proper w0 rid st0)
    (h1 : finishMove rid st0.X st0.Y st0.X (fy st0.Y) w0 st0 = (.ok (), w1, st1))
    (h2 : finishMove rid st1.X st1.Y (fx st1.X) st1.Y w1 st1 = (.ok (), w2, st2)) :
    finishMove rid st0.X st0.Y (fx st0.X) (fy st0.Y) w0 st0 = (.ok (), w2, st2) := by
  obtain ⟨hrne, hcell0, hother0⟩ := hP
  obtain ⟨hbx1, hby1, hfree1, hw1, hst1⟩ := finishMove_ok h1
  subst hw1
  subst hst1
  obtain ⟨hbx2, hby2, hfree2, hw2, hst2⟩ := finishMove_ok h2
  subst hw2
  subst hst2
  dsimp only at hbx2 hby2 hfree2 ⊢
  have hs_empty : w0.gridyx (fy st0.Y) st0.X = "" := by
    rcases hfree1 with hf | hf
    · exact hf
    · exact absurd hf (hother0 (fy st0.Y) (le_trans hby1 (by decide)) st0.X
        (le_trans hbx1 (by decide)) (fun hcc => hfy hcc.1))
  have ht : w0.gridyx (fy st0.Y) (fx st0.X) = "" ∨ w0.gridyx (fy st0.Y) (fx st0.X) = rid := by
    rwa [gridSet_other _ _ _ _ _ _ (fun hcc => hfx hcc.2),
      gridSet_other _ _ _ _ _ _ (fun hcc => hfy hcc.1)] at hfree2
  have hgrids :
      gridSet (gridSet (gridSet (gridSet w0.gridyx st0.Y st0.X "") (fy st0.Y) st0.X rid)
          (fy st0.Y) st0.X "") (fy st0.Y) (fx st0.X) rid =
      gridSet (gridSet w0.gridyx st0.Y st0.X "") (fy st0.Y) (fx st0.X) rid := by
    rw [gridSet_overwrite]
    have hmid : gridSet (gridSet w0.gridyx st0.Y st0.X "") (fy st0.Y) st0.X "" =
        gridSet w0.gridyx st0.Y st0.X "" := by
      apply gridSet_noop
      rw [gridSet_other _ _ _ _ _ _ (fun hcc => hfy hcc.1)]
      exact hs_empty
    rw [hmid]
  unfold finishMove
  rw [if_neg (by
    simp only [not_or]
    exact ⟨Nat.not_lt.mpr hbx2, Nat.not_lt.mpr hby1, Nat.not_lt_zero _, Nat.not_lt_zero _⟩)]
  rw [if_neg (fun hcon => ht.elim hcon.1 hcon.2)]
  rw [hgrids]

/-- Fusing a horizontal unit move followed by a vertical one into a single
diagonal step. -/
theorem fuse_horizontal_vertical (rid : String) (w0 : Warehouse) (st0 : RobotState)
    (w1 : Warehouse) (st1 : RobotState) (w2 : Warehouse) (st2 : RobotState)
    (fx fy : Nat → Nat)
    (hfx : fx st0.X ≠ st0.X) (hfy : fy st0.Y ≠ st0.Y)
    (hP : Proper w0 rid st0)
    (h1 : finishMove rid st0.X st0.Y (fx st0.X) st0.Y w0 st0 = (.ok (), w1, st1))
    (h2 : finishMove rid st1.X st1.Y st1.X (fy st1.Y) w1 st1 = (.ok (), w2, st2)) :
    finishMove rid st0.X st0.Y (fx st0.X) (fy st0.Y) w0 st0 = (.ok (), w2, st2) := by
  obtain ⟨hrne, hcell0, hother0⟩ := hP
  obtain ⟨hbx1, hby1, hfree1, hw1, hst1⟩ := finishMove_ok h1
  subst hw1
  subst hst1
  obtain ⟨hbx2, hby2, hfree2, hw2, hst2⟩ := finishMove_ok h2
  subst hw2
  subst hst2
  dsimp only at hbx2 hby2 hfree2 ⊢
  have hs_empty : w0.gridyx st0.Y (fx st0.X) = "" := by
    rcases hfree1 with hf | hf
    · exact hf
    · exact absurd hf (hother0 st0.Y (le_trans hby1 (by decide)) (fx st0.X)
        (le_trans hbx1 (by decide)) (fun hcc => hfx hcc.2))
  have ht : w0.gridyx (fy st0.Y) (fx st0.X) = "" ∨ w0.gridyx (fy st0.Y) (fx st0.X) = rid := by
    rwa [gridSet_other _ _ _ _ _ _ (fun hcc => hfy hcc.1),
      gridSet_other _ _ _ _ _ _ (fun hcc => hfx hcc.2)] at hfree2
  have hgrids :
      gridSet (gridSet (gridSet (gridSet w0.gridyx st0.Y st0.X "") st0.Y (fx st0.X) rid)
          st0.Y (fx st0.X) "") (fy st0.Y) (fx st0.X) rid =
      gridSet (gridSet w0.gridyx st0.Y st0.X "") (fy st0.Y) (fx st0.X) rid := by
    rw [gridSet_overwrite]
    have hmid : gridSet (gridSet w0.gridyx st0.Y st0.X "") st0.Y (fx st0.X) "" =
        gridSet w0.gridyx st0.Y st0.X "" := by
      apply gridSet_noop
      rw [gridSet_other _ _ _ _ _ _ (fun hcc => hfx hcc.2)]
      exact hs_empty
    rw [hmid]
  unfold finishMove
  rw [if_neg (by
    simp only [not_or]
    exact ⟨Nat.not_lt.mpr hbx1, Nat.not_lt.mpr hby2, Nat.not_lt_zero _, Nat.not_lt_zero _⟩)]
  rw [if_neg (fun hcon => ht.elim hcon.1 hcon.2)]
  rw [hgrids]

/-- Soundness of the single-pass rewriter relative to execution: `hcmd` is
the held command of the pass (`nullCmd` meaning an empty hold) and
`(w1, st1)` the state reached after executing the hold from `(w0, st0)`; if
the remaining original commands run to completion from `(w1, st1)`, the
rewritten list runs to completion from `(w0, st0)` with the same final
world and robot state. -/
theorem processRec_refines (cp : Bool) (rid : String) :
    ∀ (cmds : List Char) (hcmd : Char) (w0 : Warehouse) (st0 : RobotState)
      (w1 : Warehouse) (st1 : RobotState) (wf : Warehouse) (stf : RobotState),
      Proper w0 rid st0 → st0.X < U64 → st0.Y < U64 →
      ((hcmd = nullCmd ∧ w1 = w0 ∧ st1 = st0) ∨
        executeCommand cp rid w0 st0 hcmd = (.ok (), w1, st1)) →
      runCommands cp rid w1 st1 cmds = (.ok (), wf, stf) →
      runCommands cp rid w0 st0 (processRec hcmd cmds) = (.ok (), wf, stf) := by
  intro cmds
  induction cmds with
  | nil =>
    intro hcmd w0 st0 w1 st1 wf stf hP hx hy hheld hrun
    simp only [runCommands] at hrun
    have hwf : w1 = wf := congrArg (fun p => p.2.1) hrun
    have hstf : st1 = stf := congrArg (fun p => p.2.2) hrun
    subst hwf
    subst hstf
    by_cases hn : hcmd = nullCmd
    · subst hn
      rcases hheld with ⟨-, rfl, rfl⟩ | hexec
      · simp [processRec, runCommands]
      · rw [executeCommand_unknown cp rid w0 st0 nullCmd (by decide)] at hexec
        exact absurd (congrArg (fun p => p.1) hexec) (by simp)
    · rcases hheld with ⟨hn2, -, -⟩ | hexec
      · exact absurd hn2 hn
      · simp only [processRec]
        rw [show (hcmd != nullCmd) = true from bne_iff_ne.mpr hn]
        simp only [if_true, runCommands]
        rw [hexec]
  | cons c cs ih =>
    intro hcmd w0 st0 w1 st1 wf stf hP hx hy hheld hrun
    obtain ⟨w2, st2, hc2, hrest⟩ := runCommands_cons_ok hrun
    have hP1 : Proper w1 rid st1 ∧ st1.X < U64 ∧ st1.Y < U64 := by
      rcases hheld with ⟨-, rfl, rfl⟩ | hexec
      · exact ⟨hP, hx, hy⟩
      · exact exec_preserves cp rid w0 st0 hcmd w1 st1 hP hx hy hexec
    have step : ∀ dtok : Char, executeCommand cp rid w0 st0 dtok = (.ok (), w2, st2) →
        runCommands cp rid w0 st0 (dtok :: processRec nullCmd cs) = (.ok (), wf, stf) := by
      intro dtok hdt
      have hP2 := exec_preserves cp rid w0 st0 dtok w2 st2 hP hx hy hdt
      simp only [runCommands]
      rw [hdt]
      exact ih nullCmd w2 st2 w2 st2 wf stf hP2.1 hP2.2.1 hP2.2.2 (Or.inl ⟨rfl, rfl, rfl⟩) hrest
    cases hA : (hcmd != nullCmd && isCardinal hcmd && isCardinal c && isOrthogonal hcmd c) with
    | false =>
      by_cases hn : hcmd = nullCmd
      · subst hn
        rcases hheld with ⟨-, rfl, rfl⟩ | hexec
        · simp only [processRec]
          rw [hA, show (nullCmd != nullCmd) = false from by simp]
          simp only [Bool.false_eq_true, if_false]
          exact ih c w1 st1 w2 st2 wf stf hP hx hy (Or.inr hc2) hrest
        · rw [executeCommand_unknown cp rid w0 st0 nullCmd (by decide)] at hexec
          exact absurd (congrArg (fun p => p.1) hexec) (by simp)
      · rcases hheld with ⟨hn2, -, -⟩ | hexec
        · exact absurd hn2 hn
        · simp only [processRec]
          rw [hA, show (hcmd != nullCmd) = true from bne_iff_ne.mpr hn]
          simp only [Bool.false_eq_true, if_false, if_true, runCommands]
          rw [hexec]
          exact ih c w1 st1 w2 st2 wf stf hP1.1 hP1.2.1 hP1.2.2 (Or.inr hc2) hrest
    | true =>
      have hn : hcmd ≠ nullCmd := by
        intro he
        rw [he] at hA
        simp at hA
      have hch : isCardinal hcmd = true := by
        cases hval : isCardinal hcmd
        · rw [hval] at hA
          simp at hA
        · rfl
      have hcc : isCardinal c = true := by
        cases hval : isCardinal c
        · rw [hval] at hA
          simp at hA
        · rfl
      have hor : isOrthogonal hcmd c = true := by
        cases hval : isOrthogonal hcmd c
        · rw [hval] at hA
          simp at hA
        · rfl
      rcases hheld with ⟨hn2, -, -⟩ | hexec
      · exact absurd hn2 hn
      cases hB1 : ((hcmd == 'N' && c == 'E') || (hcmd == 'E' && c == 'N')) with
      | true =>
        simp only [processRec]
        rw [hA, hB1]
        simp only [if_true]
        have hBp : (hcmd = 'N' ∧ c = 'E') ∨ (hcmd = 'E' ∧ c = 'N') := by
          simpa using hB1
        rcases hBp with ⟨rfl, rfl⟩ | ⟨rfl, rfl⟩
        ·
          rw [executeCommand_N] at hexec
          rw [executeCommand_E] at hc2
          exact step MoveNorthEast (by
            rw [executeCommand_NE]
            exact fuse_vertical_horizontal rid w0 st0 w1 st1 w2 st2 uinc uinc
              (uinc_ne st0.X hx) (uinc_ne st0.Y hy) hP hexec hc2)
        ·
          rw [executeCommand_E] at hexec
          rw [executeCommand_N] at hc2
          exact step MoveNorthEast (by
            rw [executeCommand_NE]
            exact fuse_horizontal_vertical rid w0 st0 w1 st1 w2 st2 uinc uinc
              (uinc_ne st0.X hx) (uinc_ne st0.Y hy) hP hexec hc2)
      | false =>
      cases hB2 : ((hcmd == 'N' && c == 'W') || (hcmd == 'W' && c == 'N')) with
      | true =>
        simp only [processRec]
        rw [hA, hB1, hB2]
        simp only [Bool.false_eq_true, if_false, if_true]
        have hBp : (hcmd = 'N' ∧ c = 'W') ∨ (hcmd = 'W' ∧ c = 'N') := by
          simpa using hB2
        rcases hBp with ⟨rfl, rfl⟩ | ⟨rfl, rfl⟩
        ·
          rw [executeCommand_N] at hexec
          rw [executeCommand_W] at hc2
          exact step MoveNorthWest (by
            rw [executeCommand_NW]
            exact fuse_vertical_horizontal rid w0 st0 w1 st1 w2 st2 udec uinc
              (udec_ne st0.X hx) (uinc_ne st0.Y hy) hP hexec hc2)
        ·
          rw [executeCommand_W] at hexec
          rw [executeCommand_N] at hc2
          exact step MoveNorthWest (by
            rw [executeCommand_NW]
            exact fuse_horizontal_vertical rid w0 st0 w1 st1 w2 st2 udec uinc
              (udec_ne st0.X hx) (uinc_ne st0.Y hy) hP hexec hc2)
      | false =>
      cases hB3 : ((hcmd == 'S' && c == 'E') || (hcmd == 'E' && c == 'S')) with
      | true =>
        simp only [processRec]
        rw [hA, hB1, hB2, hB3]
        simp only [Bool.false_eq_true, if_false, if_true]
        have hBp : (hcmd = 'S' ∧ c = 'E') ∨ (hcmd = 'E' ∧ c = 'S') := by
          simpa using hB3
        rcases hBp with ⟨rfl, rfl⟩ | ⟨rfl, rfl⟩
        ·
          rw [executeCommand_S] at hexec
          rw [executeCommand_E] at hc2
          exact step MoveSouthEast (by
            rw [executeCommand_SE]
            exact fuse_vertical_horizontal rid w0 st0 w1 st1 w2 st2 uinc udec
              (uinc_ne st0.X hx) (udec_ne st0.Y hy) hP hexec hc2)
        ·
          rw [executeCommand_E] at hexec
          rw [executeCommand_S] at hc2
          exact step MoveSouthEast (by
            rw [executeCommand_SE]
            exact fuse_horizontal_vertical rid w0 st0 w1 st1 w2 st2 uinc udec
              (uinc_ne st0.X hx) (udec_ne st0.Y hy) hP hexec hc2)
      | false =>
      cases hB4 : ((hcmd == 'S' && c == 'W') || (hcmd == 'W' && c == 'S')) with
      | true =>
        simp only [processRec]
        rw [hA, hB1, hB2, hB3, hB4]
        simp only [Bool.false_eq_true, if_false, if_true]
        have hBp : (hcmd = 'S' ∧ c = 'W') ∨ (hcmd = 'W' ∧ c = 'S') := by
          simpa using hB4
        rcases hBp with ⟨rfl, rfl⟩ | ⟨rfl, rfl⟩
        ·
          rw [executeCommand_S] at hexec
          rw [executeCommand_W] at hc2
          exact step MoveSouthWest (by
            rw [executeCommand_SW]
            exact fuse_vertical_horizontal rid w0 st0 w1 st1 w2 st2 udec udec
              (udec_ne st0.X hx) (udec_ne st0.Y hy) hP hexec hc2)
        ·
          rw [executeCommand_W] at hexec
          rw [executeCommand_S] at hc2
          exact step MoveSouthWest (by
            rw [executeCommand_SW]
            exact fuse_horizontal_vertical rid w0 st0 w1 st1 w2 st2 udec udec
              (udec_ne st0.X hx) (udec_ne st0.Y hy) hP hexec hc2)
      | false =>
        have hcard1 : hcmd = 'N' ∨ hcmd = 'S' ∨ hcmd = 'E' ∨ hcmd = 'W' := by
          revert hch
          simp [isCardinal]
          tauto
        have hcard2 : c = 'N' ∨ c = 'S' ∨ c = 'E' ∨ c = 'W' := by
          revert hcc
          simp [isCardinal]
          tauto
        rcases hcard1 with rfl | rfl | rfl | rfl <;> rcases hcard2 with rfl | rfl | rfl | rfl <;>
          first
          | exact absurd hor (by decide)
          | exact absurd hB1 (by decide)
          | exact absurd hB2 (by decide)
          | exact absurd hB3 (by decide)
          | exact absurd hB4 (by decide)

/-- C10: running the rewritten command list produced by `processCommands` from any
proper reachable configuration (the robot's id marks exactly its own cell, and its
coordinates are representable 64-bit uints) yields exactly the same final warehouse
and robot state as running the original list, whenever the original run succeeds. -/
theorem diagonal_rewrite_refines (cp : Bool) (rid : String) (w : Warehouse) (st : RobotState)
    (cmds : List Char) (wf : Warehouse) (stf : RobotState)
    (hP : Proper w rid st) (hx : st.X < U64) (hy : st.Y < U64)
    (hrun : runCommands cp rid w st cmds = (.ok (), wf, stf)) :
    runCommands cp rid w st (processCommands cmds) = (.ok (), wf, stf) := by
  rw [processCommands_eq_rec]
  exact processRec_refines cp rid cmds nullCmd w st w st wf stf hP hx hy (Or.inl ⟨rfl, rfl, rfl⟩) hrun

theorem diagonal_rewrite_refines_witness :
    runCommands false "R1" { NewWarehouse with gridyx := gridSet NewWarehouse.gridyx 0 0 "R1" } ⟨0, 0, false⟩ (processCommands ['N', 'E']) = (.ok (), (runCommands false "R1" { NewWarehouse with gridyx := gridSet NewWarehouse.gridyx 0 0 "R1" } ⟨0, 0, false⟩ ['N', 'E']).2.1, (runCommands false "R1" { NewWarehouse with gridyx := gridSet NewWarehouse.gridyx 0 0 "R1" } ⟨0, 0, false⟩ ['N', 'E']).2.2) :=
  diagonal_rewrite_refines false "R1" { NewWarehouse with gridyx := gridSet NewWarehouse.gridyx 0 0 "R1" } ⟨0, 0, false⟩ ['N', 'E'] (runCommands false "R1" { NewWarehouse with gridyx := gridSet NewWarehouse.gridyx 0 0 "R1" } ⟨0, 0, false⟩ ['N', 'E']).2.1 (runCommands false "R1" { NewWarehouse with gridyx := gridSet NewWarehouse.gridyx 0 0 "R1" } ⟨0, 0, false⟩ ['N', 'E']).2.2 (by decide) (by decide) (by decide) rfl

end LibRobot
